import Mathlib

/-!
Verification of the movie recommender core (src/app.py).

The file shallowly embeds the parts of `app.py` that the specification
talks about:

* the recommendation query `recommend` (app.py lines 85-105), including
  the pandas first-match title lookup, the stable descending sort
  produced by `sorted(..., reverse=True, key=lambda x: x[1])`, and the
  Python slice `distances[1 : top_k + 1]`;
* the per-row field decoders `parse`, `parse_cast`, `parse_director`
  (lines 29-39) and the tag construction (lines 48-57);
* the vectorizer call (lines 60-61) and the cosine-similarity matrix
  (line 63).

Similarity values are modelled as rationals (the query logic only
compares them); the cosine matrix itself is modelled over the reals,
where the dot/norm arithmetic of line 63 is exact.
-/

namespace MovieRec

/-- A row of the merged dataframe as `recommend` sees it after
`movies[["id", "title", "tags"]]`: only `id` and `title` are read. -/
structure Movie where
  id : Int
  title : String
deriving DecidableEq, Repr

/-- Default row used for out-of-range `iloc` access in the model. -/
def defaultMovie : Movie := ⟨0, ""⟩

/-- Python `enumerate` starting at `n`. -/
def pyEnum (n : Nat) : List ℚ → List (Nat × ℚ)
  | [] => []
  | x :: xs => (n, x) :: pyEnum (n + 1) xs

/-- One insertion step of a stable descending sort on the second
component: an element passes over strictly larger keys and stops in
front of the first key that is less than or equal to its own, which is
exactly the tie behaviour of CPython `sorted(..., reverse=True)`
(equal keys keep their original relative order). -/
def insertDesc (x : Nat × ℚ) : List (Nat × ℚ) → List (Nat × ℚ)
  | [] => [x]
  | y :: ys => if x.2 < y.2 then y :: insertDesc x ys else x :: y :: ys

/-- Stable descending sort by the second component, the model of
`sorted(list(enumerate(row)), reverse=True, key=lambda x: x[1])`. -/
def sortDesc (l : List (Nat × ℚ)) : List (Nat × ℚ) :=
  l.foldr insertDesc []

/-- The ranking built inside `recommend` for one similarity row. -/
def rankAll (row : List ℚ) : List (Nat × ℚ) :=
  sortDesc (pyEnum 0 row)

/-- The order in which `recommend` ranks rows: strictly larger
similarity first; equal similarities in ascending row-index order. -/
def rankOrder (a b : Nat × ℚ) : Prop :=
  b.2 < a.2 ∨ (a.2 = b.2 ∧ a.1 < b.1)

/-- Effective stop index of a Python slice `l[_ : b]` on a list of
length `n`: a negative bound counts from the end and is clamped at 0,
a nonnegative bound is clamped at `n`. -/
def pyStop (n : Nat) (b : Int) : Nat :=
  if b < 0 then (b + n).toNat else min b.toNat n

/-- Python slice `l[1 : b]`. -/
def sliceFrom1 (b : Int) (l : List α) : List α :=
  (l.take (pyStop l.length b)).drop 1

/-- `movies[movies["title"] == movie].index[0]` on a default
`RangeIndex`: the position of the first row whose title equals the
query, `none` when there is no match (pandas raises `IndexError`,
caught by the `try`/`except` of `recommend`). -/
def firstTitleIdx (t : String) : List Movie → Option Nat
  | [] => none
  | m :: ms => if m.title = t then some 0 else (firstTitleIdx t ms).map (· + 1)

/-- Row indices selected by `recommend`: the slice
`distances[1 : top_k + 1]` of the ranking, first components only. -/
def recommendRows (movie : String) (movies : List Movie)
    (similarity : List (List ℚ)) (top_k : Int) : List Nat :=
  match firstTitleIdx movie movies with
  | none => []
  | some idx =>
      (sliceFrom1 (top_k + 1) (rankAll (similarity.getD idx []))).map (·.1)

/-- `recommend` (app.py lines 85-105).  `fp` abstracts the network call
`fetch_poster`; the function returns the pair
`(recommended_names, recommended_posters)`. -/
def recommend (fp : Int → String) (movie : String) (movies : List Movie)
    (similarity : List (List ℚ)) (top_k : Int) : List String × List String :=
  match firstTitleIdx movie movies with
  | none => ([], [])
  | some idx =>
      let distances := rankAll (similarity.getD idx [])
      let chosen := sliceFrom1 (top_k + 1) distances
      (chosen.map (fun i => (movies.getD i.1 defaultMovie).title),
       chosen.map (fun i => fp (movies.getD i.1 defaultMovie).id))

/-- A concrete poster fetcher used for closed-term evaluations: the
placeholder answer of `fetch_poster` when no key is configured. -/
def noPoster : Int → String := fun _ => "placeholder"

/-! ### Tag Builder (app.py lines 29-57)

`ast.literal_eval` is applied to the raw text of a structured column
(`genres`, `keywords`, `cast`, `crew`).  We embed the *result* of that
call: either a successfully decoded list of dictionaries, or a failure
(`ValueError("malformed node or string")` for malformed text,
`TypeError` for a missing value, i.e. `NaN`).  Only the keys `"name"`
and `"job"` are ever read by the code. -/

/-- A decoded dictionary of a structured column; only the keys read by
the code are kept. -/
structure Obj where
  name : String
  job : String
deriving DecidableEq, Repr

/-- Outcome of `ast.literal_eval` on one cell of a structured column. -/
inductive Lit where
  | objs : List Obj → Lit
  | malformed : Lit
deriving DecidableEq, Repr

/-- The error message of `ast.literal_eval` on malformed input. -/
def malformedMsg : String := "malformed node or string"

/-- `parse` (lines 29-30): the names of every decoded dictionary.  The
code contains no exception handling, so a `literal_eval` failure
propagates. -/
def parse : Lit → Except String (List String)
  | .objs l => .ok (l.map (·.name))
  | .malformed => .error malformedMsg

/-- `parse_cast` (lines 32-33): names of the first three entries. -/
def parse_cast : Lit → Except String (List String)
  | .objs l => .ok ((l.take 3).map (·.name))
  | .malformed => .error malformedMsg

/-- `parse_director` (lines 35-39): the name of the first crew entry
whose job is "Director", or the empty list. -/
def parse_director : Lit → Except String (List String)
  | .objs l =>
      .ok (match l.find? (fun i => i.job = "Director") with
           | some i => [i.name]
           | none => [])
  | .malformed => .error malformedMsg

/-- `movies[col].apply(f)` for a parse function `f`: pandas applies `f`
row by row and the first exception aborts the whole `apply`. -/
def applyColumn : List Lit → Except String (List (List String))
  | [] => .ok []
  | f :: fs =>
      match parse f with
      | .error e => .error e
      | .ok names =>
          match applyColumn fs with
          | .error e => .error e
          | .ok rest => .ok (names :: rest)

/-- One row of the merged dataframe before tag construction. -/
structure MergedRow where
  id : Int
  title : String
  overview : Option String
  genres : Lit
  keywords : Lit
  cast : Lit
  crew : Lit

/-- `movies["overview"].fillna("")`. -/
def fillna (o : Option String) : String := o.getD ""

/-- The tag of one merged row (lines 42-57): parse the four structured
columns, space-join each name list, concatenate with the synopsis using
single-space separators, and lowercase the result.  Any parse failure
propagates (the column-wise `apply` of the source raises). -/
def build_tags (r : MergedRow) : Except String String := do
  let g ← parse r.genres
  let k ← parse r.keywords
  let c ← parse_cast r.cast
  let d ← parse_director r.crew
  return (fillna r.overview ++ " " ++ String.intercalate " " g ++ " " ++
    String.intercalate " " k ++ " " ++ String.intercalate " " c ++ " " ++
    String.intercalate " " d).toLower

/-- The tag as the specification describes it: the lowercase of the
five parts (synopsis or empty, genre names, keyword names, first three
cast names, director name) each space-joined, separated by single
spaces. -/
def tagSpec (synopsis : Option String) (genres keywords cast crew : List Obj) :
    String :=
  (String.intercalate " "
    [synopsis.getD "",
     String.intercalate " " (genres.map (·.name)),
     String.intercalate " " (keywords.map (·.name)),
     String.intercalate " " ((cast.take 3).map (·.name)),
     String.intercalate " "
       (match crew.find? (fun i => i.job = "Director") with
        | some i => [i.name]
        | none => [])]).toLower

/-! ### Vectorizer (app.py lines 60-61)

`CountVectorizer(max_features=5000, stop_words="english")` lowercases
each document, extracts the tokens matching `\b\w\w+\b` (runs of at
least two word characters), drops the configured stop words, restricts
the vocabulary to the 5000 most frequent remaining terms (columns in
alphabetical order, frequency ties resolved by that order), and raises
`ValueError("empty vocabulary ...")` when no term survives - in
particular on an empty corpus.  The stop-word list is a fixed library
constant; the model is parametric in it. -/

/-- A word character of the token pattern `\w`. -/
def isWordChar (c : Char) : Bool := c.isAlphanum || c = '_'

/-- Splits a character stream into maximal runs of word characters;
`acc` holds the current run reversed. -/
def tokenRuns : List Char → List Char → List (List Char)
  | [], acc => if acc.isEmpty then [] else [acc.reverse]
  | c :: cs, acc =>
      if isWordChar c then tokenRuns cs (c :: acc)
      else if acc.isEmpty then tokenRuns cs []
      else acc.reverse :: tokenRuns cs []

/-- The tokens of one document: lowercase, then keep the maximal runs
of word characters of length at least two. -/
def tokenize (s : String) : List String :=
  ((tokenRuns s.toLower.data []).filter (fun r => 2 ≤ r.length)).map
    (fun r => String.mk r)

/-- Tokens of one document that are not stop words. -/
def docTerms (sw : List String) (s : String) : List String :=
  (tokenize s).filter (fun w => ¬ sw.contains w)

/-- All non-stop tokens of the corpus, in document order. -/
def corpusTerms (sw : List String) (tags : List String) : List String :=
  (tags.map (docTerms sw)).flatten

/-- Stable insertion step of an ascending lexicographic sort. -/
def insertAsc (x : String) : List String → List String
  | [] => [x]
  | y :: ys => if y < x then y :: insertAsc x ys else x :: y :: ys

/-- Ascending lexicographic sort (the column order of the vectorizer). -/
def sortAsc (l : List String) : List String := l.foldr insertAsc []

/-- Stable insertion step of a descending sort by a count key. -/
def insertByCount (cnt : String → Nat) (x : String) :
    List String → List String
  | [] => [x]
  | y :: ys =>
      if cnt x < cnt y then y :: insertByCount cnt x ys else x :: y :: ys

/-- Stable descending sort by a count key. -/
def sortByCount (cnt : String → Nat) (l : List String) : List String :=
  l.foldr (insertByCount cnt) []

/-- The vocabulary retained by the vectorizer: distinct non-stop terms,
alphabetical, then the 5000 most frequent (stable, so frequency ties
keep alphabetical order). -/
def vocabTerms (sw : List String) (tags : List String) : List String :=
  let toks := corpusTerms sw tags
  (sortByCount (fun term => toks.count term) (sortAsc toks.dedup)).take 5000

/-- The message of the `ValueError` that `CountVectorizer` raises. -/
def emptyVocabMsg : String :=
  "empty vocabulary; perhaps the documents only contain stop words"

/-- `cv.fit_transform(movies["tags"])` (line 61): the vocabulary and
the count matrix, or the `ValueError` that `CountVectorizer` raises
when the produced vocabulary is empty (which an empty corpus forces). -/
def fit_transform (sw : List String) (tags : List String) :
    Except String (List String × List (List Nat)) :=
  let vocab := vocabTerms sw tags
  if vocab = [] then
    .error emptyVocabMsg
  else
    .ok (vocab, tags.map (fun t => vocab.map (fun term => (docTerms sw t).count term)))

/-! ### Similarity Engine (app.py line 63)

`cosine_similarity(vectors)` on the integer count matrix: each row is
divided by its Euclidean norm (a zero norm is replaced by 1, which is
what `sklearn.preprocessing.normalize` does), and the matrix of
pairwise dot products of the normalised rows is returned.  The
arithmetic is modelled exactly over the reals. -/

/-- Dot product of two integer count vectors (missing entries are 0). -/
def dotZ : List ℤ → List ℤ → ℤ
  | x :: xs, y :: ys => x * y + dotZ xs ys
  | _, _ => 0

/-- Whether a feature vector is all-zero. -/
def isZeroVec (v : List ℤ) : Bool := v.all (fun x => x = 0)

/-- The row normaliser of `cosine_similarity`: the Euclidean norm, with
zero norms replaced by 1. -/
noncomputable def nrm (v : List ℤ) : ℝ :=
  if dotZ v v = 0 then 1 else Real.sqrt ((dotZ v v : ℤ) : ℝ)

/-- One entry of the cosine-similarity matrix. -/
noncomputable def cosEntry (v w : List ℤ) : ℝ :=
  ((dotZ v w : ℤ) : ℝ) / (nrm v * nrm w)

/-- `cosine_similarity(vectors)` as a full matrix. -/
noncomputable def cosine_similarity (m : List (List ℤ)) : List (List ℝ) :=
  m.map (fun v => m.map (fun w => cosEntry v w))

/-- Entry `(i, j)` of the similarity matrix (0 outside the matrix). -/
noncomputable def simEntry (m : List (List ℤ)) (i j : Nat) : ℝ :=
  ((cosine_similarity m).getD i []).getD j 0

/-- `recommend` factors through `recommendRows`. -/
theorem recommend_eq_rows (fp : Int → String) (movie : String)
    (movies : List Movie) (similarity : List (List ℚ)) (top_k : Int) :
    recommend fp movie movies similarity top_k =
      ((recommendRows movie movies similarity top_k).map
          (fun j => (movies.getD j defaultMovie).title),
       (recommendRows movie movies similarity top_k).map
          (fun j => fp (movies.getD j defaultMovie).id)) := by
  unfold recommend recommendRows
  cases firstTitleIdx movie movies with
  | none => rfl
  | some idx => simp [List.map_map, Function.comp]

/-! ### Lemmas about enumeration, sorting, and slicing -/

/-- `pyEnum` preserves length. -/
theorem pyEnum_length (n : Nat) : ∀ row : List ℚ, (pyEnum n row).length = row.length
  | [] => rfl
  | _ :: xs => by rw [pyEnum, List.length_cons, List.length_cons, pyEnum_length (n + 1) xs]

/-- Every element of `pyEnum n row` is an in-range index paired with
the corresponding entry of `row`. -/
theorem mem_pyEnum {p : Nat × ℚ} : ∀ (n : Nat) (row : List ℚ), p ∈ pyEnum n row →
    n ≤ p.1 ∧ p.1 - n < row.length ∧ p.2 = row.getD (p.1 - n) 0
  | n, [], h => by simp [pyEnum] at h
  | n, x :: xs, h => by
    rw [pyEnum] at h
    rcases List.mem_cons.mp h with h | h
    · subst h; simp
    · obtain ⟨h1, h2, h3⟩ := mem_pyEnum (n + 1) xs h
      refine ⟨by omega, by simp only [List.length_cons]; omega, ?_⟩
      have e : p.1 - n = (p.1 - (n + 1)) + 1 := by omega
      rw [e, List.getD_cons_succ, h3]

/-- Conversely, every in-range index appears in the enumeration. -/
theorem pyEnum_mem : ∀ (n : Nat) (row : List ℚ) (k : Nat), k < row.length →
    (n + k, row.getD k 0) ∈ pyEnum n row
  | _, [], k, h => by simp at h
  | n, x :: xs, 0, _ => by simp [pyEnum]
  | n, x :: xs, k + 1, h => by
    have h' : k < xs.length := by simp only [List.length_cons] at h; omega
    have ih := pyEnum_mem (n + 1) xs k h'
    rw [pyEnum]
    have e : n + (k + 1) = (n + 1) + k := by omega
    rw [e, List.getD_cons_succ]
    exact List.mem_cons_of_mem _ ih

/-- Enumeration indices are strictly increasing. -/
theorem pyEnum_pairwise : ∀ (n : Nat) (row : List ℚ),
    (pyEnum n row).Pairwise (fun a b => a.1 < b.1)
  | _, [] => List.Pairwise.nil
  | n, x :: xs => by
    rw [pyEnum]
    refine List.pairwise_cons.mpr ⟨?_, pyEnum_pairwise (n + 1) xs⟩
    intro b hb
    have h1 := (mem_pyEnum (n + 1) xs hb).1
    show n < b.1
    omega

/-- Inserting is a permutation of consing. -/
theorem insertDesc_perm (x : Nat × ℚ) : ∀ l : List (Nat × ℚ),
    List.Perm (insertDesc x l) (x :: l)
  | [] => List.Perm.refl _
  | y :: ys => by
    rw [insertDesc]
    split
    · exact ((insertDesc_perm x ys).cons y).trans (List.Perm.swap x y ys)
    · exact List.Perm.refl _

/-- The sort permutes its input. -/
theorem sortDesc_perm : ∀ l : List (Nat × ℚ), List.Perm (sortDesc l) l
  | [] => List.Perm.refl _
  | x :: xs => by
    show List.Perm (insertDesc x (sortDesc xs)) (x :: xs)
    exact (insertDesc_perm x (sortDesc xs)).trans ((sortDesc_perm xs).cons x)

/-- Inserting an element whose index is smaller than every index
already present preserves sortedness in `rankOrder`. -/
theorem insertDesc_pairwise (x : Nat × ℚ) : ∀ l : List (Nat × ℚ),
    l.Pairwise rankOrder → (∀ y ∈ l, x.1 < y.1) →
    (insertDesc x l).Pairwise rankOrder
  | [], _, _ => by simp [insertDesc]
  | y :: ys, hl, hx => by
    have hl' := List.pairwise_cons.mp hl
    rw [insertDesc]
    split
    case isTrue hlt =>
      refine List.pairwise_cons.mpr
        ⟨?_, insertDesc_pairwise x ys hl'.2
              (fun z hz => hx z (List.mem_cons_of_mem y hz))⟩
      intro z hz
      rcases List.mem_cons.mp ((insertDesc_perm x ys).mem_iff.mp hz) with rfl | hz
      · exact Or.inl hlt
      · exact hl'.1 z hz
    case isFalse hge =>
      have hyx : y.2 ≤ x.2 := le_of_not_lt hge
      refine List.pairwise_cons.mpr ⟨?_, hl⟩
      intro z hz
      rcases List.mem_cons.mp hz with rfl | hz
      · rcases lt_or_eq_of_le hyx with h | h
        · exact Or.inl h
        · exact Or.inr ⟨h.symm, hx _ (List.mem_cons_self _ _)⟩
      · rcases hl'.1 z hz with h | h
        · exact Or.inl (lt_of_lt_of_le h hyx)
        · rcases lt_or_eq_of_le hyx with h2 | h2
          · exact Or.inl (h.1 ▸ h2)
          · exact Or.inr ⟨h2.symm.trans h.1, hx z (List.mem_cons_of_mem y hz)⟩

/-- On inputs with strictly increasing indices the sort produces a
list sorted in `rankOrder`: descending similarity, ties by ascending
index (the behaviour of a stable descending sort). -/
theorem sortDesc_pairwise : ∀ l : List (Nat × ℚ),
    l.Pairwise (fun a b => a.1 < b.1) → (sortDesc l).Pairwise rankOrder
  | [], _ => List.Pairwise.nil
  | x :: xs, h => by
    have h' := List.pairwise_cons.mp h
    show (insertDesc x (sortDesc xs)).Pairwise rankOrder
    exact insertDesc_pairwise x (sortDesc xs) (sortDesc_pairwise xs h'.2)
      (fun y hy => h'.1 y ((sortDesc_perm xs).subset hy))

/-- The ranking is a permutation of the enumerated row. -/
theorem rankAll_perm (row : List ℚ) : List.Perm (rankAll row) (pyEnum 0 row) :=
  sortDesc_perm _

/-- The ranking is sorted in `rankOrder`. -/
theorem rankAll_pairwise (row : List ℚ) : (rankAll row).Pairwise rankOrder :=
  sortDesc_pairwise _ (pyEnum_pairwise 0 row)

/-- The ranking has one entry per row. -/
theorem rankAll_length (row : List ℚ) : (rankAll row).length = row.length :=
  (rankAll_perm row).length_eq.trans (pyEnum_length 0 row)

/-- The effective stop of a slice never exceeds the length. -/
theorem pyStop_le (n : Nat) (b : Int) : pyStop n b ≤ n := by
  unfold pyStop
  split
  · omega
  · exact Nat.min_le_right _ _

/-- Length of the slice `l[1 : b]`. -/
theorem sliceFrom1_length (b : Int) (l : List α) :
    (sliceFrom1 b l).length = pyStop l.length b - 1 := by
  have h := pyStop_le l.length b
  simp only [sliceFrom1, List.length_drop, List.length_take]
  omega

/-- The slice selects elements of the list. -/
theorem sliceFrom1_subset (b : Int) (l : List α) : sliceFrom1 b l ⊆ l := by
  intro a ha
  exact List.take_subset _ _ (List.drop_subset _ _ ha)

/-- The slice `l[1 : b]` never contains the head of `l`s position 0. -/
theorem sliceFrom1_cons_subset (b : Int) (y : α) (t : List α) :
    sliceFrom1 b (y :: t) ⊆ t := by
  unfold sliceFrom1
  cases hs : pyStop (y :: t).length b with
  | zero => simp
  | succ s =>
    rw [List.take_succ_cons, List.drop_succ_cons, List.drop_zero]
    exact List.take_subset _ _

/-- `firstTitleIdx` misses exactly when no title matches. -/
theorem firstTitleIdx_eq_none (t : String) : ∀ movies : List Movie,
    (∀ m ∈ movies, m.title ≠ t) → firstTitleIdx t movies = none
  | [], _ => rfl
  | m :: ms, h => by
    rw [firstTitleIdx, if_neg (h m (List.mem_cons_self _ _)),
      firstTitleIdx_eq_none t ms (fun x hx => h x (List.mem_cons_of_mem _ hx))]
    rfl

/-- Indices appearing in the ranking are in range for the row. -/
theorem rankAll_fst_nodup (row : List ℚ) : ((rankAll row).map Prod.fst).Nodup := by
  have h1 : ((pyEnum 0 row).map Prod.fst).Pairwise (· < ·) :=
    List.pairwise_map.mpr (pyEnum_pairwise 0 row)
  have h2 : ((pyEnum 0 row).map Prod.fst).Nodup := h1.imp (fun h => Nat.ne_of_lt h)
  exact ((rankAll_perm row).map Prod.fst).nodup_iff.mpr h2

/-- If the matched row strictly dominates every other entry of its
similarity row, then no element of the slice `distances[1 : b]` carries
its index: the matched row sorts first and the slice starts at 1. -/
theorem rankAll_slice_no_self (row : List ℚ) (b : Int) (idx : Nat)
    (hidx : idx < row.length)
    (hmax : ∀ j, j < row.length → j ≠ idx → row.getD j 0 < row.getD idx 0) :
    ∀ p ∈ sliceFrom1 b (rankAll row), p.1 ≠ idx := by
  have hne : rankAll row ≠ [] := by
    intro hnil
    have hl := rankAll_length row
    rw [hnil] at hl
    simp only [List.length_nil] at hl
    omega
  obtain ⟨hd, tl, hcons⟩ := List.exists_cons_of_ne_nil hne
  have hhd_mem : hd ∈ pyEnum 0 row :=
    (rankAll_perm row).subset (hcons ▸ List.mem_cons_self _ _)
  obtain ⟨-, hhd1, hhd2⟩ := mem_pyEnum 0 row hhd_mem
  rw [Nat.sub_zero] at hhd1 hhd2
  have hidxmem : (idx, row.getD idx 0) ∈ rankAll row :=
    (rankAll_perm row).symm.subset (by simpa using pyEnum_mem 0 row idx hidx)
  have hhd_idx : hd = (idx, row.getD idx 0) := by
    rcases List.mem_cons.mp (hcons ▸ hidxmem) with h | h
    · exact h.symm
    · exfalso
      have hpw := rankAll_pairwise row
      rw [hcons] at hpw
      have hro := (List.pairwise_cons.mp hpw).1 _ h
      rcases hro with h1 | h1
      · have h1' : row.getD idx 0 < hd.2 := h1
        by_cases hne2 : hd.1 = idx
        · rw [hhd2, hne2] at h1'
          exact lt_irrefl _ h1'
        · have h3 := hmax hd.1 hhd1 hne2
          rw [← hhd2] at h3
          exact lt_asymm h1' h3
      · have h1' : hd.2 = row.getD idx 0 := h1.1
        have hne2 : hd.1 ≠ idx := Nat.ne_of_lt h1.2
        have h3 := hmax hd.1 hhd1 hne2
        rw [← hhd2, h1'] at h3
        exact lt_irrefl _ h3
  have hnodup := rankAll_fst_nodup row
  rw [hcons, List.map_cons] at hnodup
  have hhd_notin := (List.nodup_cons.mp hnodup).1
  intro p hp hpidx
  have hptl : p ∈ tl := sliceFrom1_cons_subset b hd tl (hcons ▸ hp)
  refine hhd_notin ?_
  rw [hhd_idx]
  exact List.mem_map.mpr ⟨p, hptl, hpidx⟩

/-- Length of the recommended-names list when the title matches. -/
theorem recommend_fst_length (fp : Int → String) (t : String)
    (movies : List Movie) (sim : List (List ℚ)) (k : Int) (idx : Nat)
    (hfind : firstTitleIdx t movies = some idx) :
    (recommend fp t movies sim k).1.length =
      pyStop (sim.getD idx []).length (k + 1) - 1 := by
  unfold recommend
  rw [hfind]
  simp [sliceFrom1_length, rankAll_length]

/-- Every selected row index is in range for the movie list, as long
as the similarity rows are not longer than the movie list. -/
theorem recommendRows_bound (t : String) (movies : List Movie)
    (sim : List (List ℚ)) (k : Int)
    (hdim : ∀ r ∈ sim, r.length ≤ movies.length) :
    ∀ j ∈ recommendRows t movies sim k, j < movies.length := by
  intro j hj
  unfold recommendRows at hj
  cases hfind : firstTitleIdx t movies with
  | none => rw [hfind] at hj; simp at hj
  | some idx =>
    rw [hfind] at hj
    obtain ⟨p, hp, hpj⟩ := List.mem_map.mp hj
    have hpmem : p ∈ rankAll (sim.getD idx []) := sliceFrom1_subset _ _ hp
    have hpe := (rankAll_perm _).subset hpmem
    obtain ⟨-, h1, -⟩ := mem_pyEnum 0 _ hpe
    rw [Nat.sub_zero] at h1
    rcases Nat.lt_or_ge idx sim.length with hlt | hge
    · have hmem : sim.getD idx [] ∈ sim := by
        rw [List.getD_eq_getElem _ _ hlt]
        exact List.getElem_mem _
      exact hpj ▸ lt_of_lt_of_le h1 (hdim _ hmem)
    · rw [List.getD_eq_default _ _ hge] at h1
      simp at h1

/-- `getD` of a mapped list at an in-range position. -/
theorem getD_map_lt {α β : Type _} (f : α → β) (l : List α) (i : Nat) (d : α)
    (db : β) (h : i < l.length) : (l.map f).getD i db = f (l.getD i d) := by
  rw [List.getD_eq_getElem _ _ (by simpa using h), List.getD_eq_getElem _ _ h,
    List.getElem_map]

-- sanity checks on concrete inputs (Python semantics cross-checked)
example : rankAll [1, 0, 0] = [(0, 1), (1, 0), (2, 0)] := by decide
example : rankAll [1, 1] = [(0, 1), (1, 1)] := by decide
example : sliceFrom1 (-1) [10, 20, 30] = [20] := by rfl
example : sliceFrom1 2 [10, 20, 30] = [20] := by rfl
example : recommendRows "b" [⟨1, "a"⟩, ⟨2, "b"⟩] [[1, 1], [1, 1]] 1 = [1] := by decide

/-! ### Claims about the recommendation query -/

/-- Claim C1, amended: for every movie index, similarity matrix, query
title matching row `idx`, and every `k`, the selected rows never
contain the matched row itself PROVIDED the matched row strictly
dominates its similarity row (every other entry of
`similarity[idx]` is strictly smaller than `similarity[idx][idx]`).
Without that proviso the code only drops the first element of the
ranking, which need not be the matched row. -/
theorem recommend_excludes_self (t : String) (movies : List Movie)
    (sim : List (List ℚ)) (k : Int) (idx : Nat)
    (hfind : firstTitleIdx t movies = some idx)
    (hidx : idx < (sim.getD idx []).length)
    (hmax : ∀ j, j < (sim.getD idx []).length → j ≠ idx →
      (sim.getD idx []).getD j 0 < (sim.getD idx []).getD idx 0) :
    idx ∉ recommendRows t movies sim k := by
  intro hmem
  unfold recommendRows at hmem
  rw [hfind] at hmem
  obtain ⟨p, hp, hpidx⟩ := List.mem_map.mp hmem
  exact rankAll_slice_no_self (sim.getD idx []) (k + 1) idx hidx hmax p hp hpidx

/-- Witness for C1: on a 2-by-2 identity-like similarity matrix the
query row 0 is never returned. -/
theorem recommend_excludes_self_witness :
    firstTitleIdx "a" [(⟨1, "a"⟩ : Movie), ⟨2, "b"⟩] = some 0 ∧
      0 ∉ recommendRows "a" [⟨1, "a"⟩, ⟨2, "b"⟩] [[1, 0], [0, 1]] 5 :=
  ⟨by decide,
   recommend_excludes_self _ _ _ _ _ (by decide) (by decide) (by decide)⟩

/-- Counterexample to C1 as stated: with two rows carrying identical
similarity (duplicate tags), querying the second title returns the
matched row itself, because the tie puts row 0 first in the ranking and
the code only drops position 0. -/
theorem recommend_includes_self_counterexample :
    firstTitleIdx "b" [(⟨1, "a"⟩ : Movie), ⟨2, "b"⟩] = some 1 ∧
      1 ∈ recommendRows "b" [⟨1, "a"⟩, ⟨2, "b"⟩] [[1, 1], [1, 1]] 1 := by
  decide

/-- Claim C2, amended: `recommend` returns an empty pair when `k = 0`
or `k = -1`.  For `k ≤ -2` the Python slice `distances[1 : k + 1]`
counts from the end and can be nonempty. -/
theorem recommend_empty_of_k_zero_or_neg_one (fp : Int → String) (t : String)
    (movies : List Movie) (sim : List (List ℚ)) (k : Int)
    (hk : k = 0 ∨ k = -1) :
    recommend fp t movies sim k = ([], []) := by
  unfold recommend
  cases hfind : firstTitleIdx t movies with
  | none => rfl
  | some idx =>
    have hstop : pyStop (rankAll (sim.getD idx [])).length (k + 1) ≤ 1 := by
      rcases hk with rfl | rfl
      · have h0 : pyStop (rankAll (sim.getD idx [])).length ((0 : Int) + 1) =
            min 1 (rankAll (sim.getD idx [])).length := by norm_num [pyStop]
        omega
      · have h0 : pyStop (rankAll (sim.getD idx [])).length ((-1 : Int) + 1) =
            min 0 (rankAll (sim.getD idx [])).length := by norm_num [pyStop]
        omega
    have hlen := sliceFrom1_length (k + 1) (rankAll (sim.getD idx []))
    have hslice : sliceFrom1 (k + 1) (rankAll (sim.getD idx [])) = [] := by
      refine List.length_eq_zero.mp ?_
      omega
    simp only [hslice, List.map_nil]

/-- Witness for C2 at `k = 0`. -/
theorem recommend_empty_k_witness :
    ((0 : Int) = 0 ∨ (0 : Int) = -1) ∧
      recommend noPoster "a" [⟨1, "a"⟩] [[1]] 0 = ([], []) :=
  ⟨Or.inl rfl, recommend_empty_of_k_zero_or_neg_one _ _ _ _ _ (Or.inl rfl)⟩

/-- Counterexample to C2 as stated: `k = -2 ≤ 0` on a 3-movie corpus
returns one movie, not an empty sequence, because
`distances[1 : -1]` keeps the middle of the ranking. -/
theorem recommend_k_neg_counterexample :
    recommend noPoster "a" [⟨1, "a"⟩, ⟨2, "b"⟩, ⟨3, "c"⟩]
      [[1, 0, 0], [0, 1, 0], [0, 0, 1]] (-2) ≠ ([], []) := by
  decide

/-- Claim C4: for every matched query row, the ranking used by
`recommend` is a permutation of the enumerated similarity row, sorted
by strictly descending similarity with ties in ascending row-index
order; moreover any list with these two properties is equal to it, so
the order is fully determined by the input. -/
theorem recommend_ranking (t : String) (movies : List Movie)
    (sim : List (List ℚ)) (idx : Nat)
    (hfind : firstTitleIdx t movies = some idx) :
    List.Perm (rankAll (sim.getD idx [])) (pyEnum 0 (sim.getD idx [])) ∧
      (rankAll (sim.getD idx [])).Pairwise rankOrder ∧
      ∀ l, List.Perm l (pyEnum 0 (sim.getD idx [])) → l.Pairwise rankOrder →
        l = rankAll (sim.getD idx []) := by
  refine ⟨rankAll_perm _, rankAll_pairwise _, ?_⟩
  intro l hperm hpw
  have hanti : ∀ a b : Nat × ℚ, rankOrder a b → rankOrder b a → a = b := by
    intro a b hab hba
    exfalso
    rcases hab with h1 | ⟨h1, h1'⟩ <;> rcases hba with h2 | ⟨h2, h2'⟩
    · exact lt_asymm h1 h2
    · exact absurd (h2 ▸ h1) (lt_irrefl _)
    · exact absurd (h1 ▸ h2) (lt_irrefl _)
    · omega
  haveI : IsAntisymm (Nat × ℚ) rankOrder := ⟨hanti⟩
  exact List.eq_of_perm_of_sorted (hperm.trans (rankAll_perm _).symm) hpw
    (rankAll_pairwise _)

/-- Witness for C4 on a concrete 2-by-2 matrix. -/
theorem recommend_ranking_witness :
    List.Perm (rankAll (([[1, 0], [0, 1]] : List (List ℚ)).getD 0 []))
        (pyEnum 0 (([[1, 0], [0, 1]] : List (List ℚ)).getD 0 [])) ∧
      (rankAll (([[1, 0], [0, 1]] : List (List ℚ)).getD 0 [])).Pairwise rankOrder :=
  ⟨(recommend_ranking "a" [⟨1, "a"⟩] [[1, 0], [0, 1]] 0 (by decide)).1,
   (recommend_ranking "a" [⟨1, "a"⟩] [[1, 0], [0, 1]] 0 (by decide)).2.1⟩

/-- Claim C5: when no row title equals the query title, `recommend`
returns the empty pair (the caught `IndexError` path), for every `k`. -/
theorem recommend_no_match (fp : Int → String) (t : String)
    (movies : List Movie) (sim : List (List ℚ)) (k : Int)
    (h : ∀ m ∈ movies, m.title ≠ t) :
    recommend fp t movies sim k = ([], []) := by
  unfold recommend
  rw [firstTitleIdx_eq_none t movies h]

/-- Witness for C5: an unknown title yields the empty result. -/
theorem recommend_no_match_witness :
    (∀ m ∈ [(⟨1, "a"⟩ : Movie)], m.title ≠ "zzz") ∧
      recommend noPoster "zzz" [⟨1, "a"⟩] [[1]] 5 = ([], []) :=
  ⟨by decide, recommend_no_match _ _ _ _ _ (by decide)⟩

/-- Claim C6: for a matched query and `k ≥ 0` the result has at most
`k` entries; it has fewer than `k` exactly when the pool of other rows
is smaller than `k`; precisely, the length is
`min k (|similarity row| - 1)`. -/
theorem recommend_at_most_k (fp : Int → String) (t : String)
    (movies : List Movie) (sim : List (List ℚ)) (k : Int) (idx : Nat)
    (hfind : firstTitleIdx t movies = some idx) (hk : 0 ≤ k) :
    (recommend fp t movies sim k).1.length ≤ k.toNat ∧
      ((recommend fp t movies sim k).1.length < k.toNat →
        (sim.getD idx []).length - 1 < k.toNat) ∧
      (recommend fp t movies sim k).1.length =
        min k.toNat ((sim.getD idx []).length - 1) := by
  have hlen := recommend_fst_length fp t movies sim k idx hfind
  have hstop : pyStop (sim.getD idx []).length (k + 1) =
      min (k + 1).toNat (sim.getD idx []).length := by
    unfold pyStop
    split
    · omega
    · rfl
  rw [hlen, hstop]
  omega

/-- Witness for C6: `k = 5` on a 2-movie corpus returns 1 entry. -/
theorem recommend_at_most_k_witness :
    firstTitleIdx "a" [(⟨1, "a"⟩ : Movie), ⟨2, "b"⟩] = some 0 ∧
      (recommend noPoster "a" [⟨1, "a"⟩, ⟨2, "b"⟩] [[1, 0], [0, 1]] 5).1.length =
        min (5 : Int).toNat ((([[1, 0], [0, 1]] : List (List ℚ)).getD 0 []).length - 1) :=
  ⟨by decide, (recommend_at_most_k noPoster "a" _ _ 5 0 (by decide) (by decide)).2.2⟩

/-- Claim C10: names and posters have the same length, and at every
position the poster is the one fetched for the id of the row whose
title stands at the same position in the names list. -/
theorem recommend_alignment (fp : Int → String) (t : String)
    (movies : List Movie) (sim : List (List ℚ)) (k : Int) (hk : 0 ≤ k)
    (hdim : ∀ r ∈ sim, r.length ≤ movies.length) :
    (recommend fp t movies sim k).1.length = (recommend fp t movies sim k).2.length ∧
      ∀ i, i < (recommend fp t movies sim k).1.length →
        ∃ j, j < movies.length ∧
          (recommend fp t movies sim k).1.getD i "" =
            (movies.getD j defaultMovie).title ∧
          (recommend fp t movies sim k).2.getD i "" =
            fp (movies.getD j defaultMovie).id := by
  rw [recommend_eq_rows]
  refine ⟨by simp, ?_⟩
  intro i hi
  simp only [List.length_map] at hi
  refine ⟨(recommendRows t movies sim k).getD i 0,
    recommendRows_bound t movies sim k hdim _ ?_, ?_, ?_⟩
  · rw [List.getD_eq_getElem _ _ hi]
    exact List.getElem_mem _
  · exact getD_map_lt _ _ i 0 "" hi
  · exact getD_map_lt _ _ i 0 "" hi

/-- Witness for C10 on a concrete 2-movie corpus. -/
theorem recommend_alignment_witness :
    ((0 : Int) ≤ 1) ∧
      (recommend noPoster "a" [(⟨1, "a"⟩ : Movie), ⟨2, "b"⟩] [[1, 0], [0, 1]] 1).1.length =
        (recommend noPoster "a" [(⟨1, "a"⟩ : Movie), ⟨2, "b"⟩] [[1, 0], [0, 1]] 1).2.length :=
  ⟨by decide, (recommend_alignment noPoster "a" _ _ 1 (by decide) (by decide)).1⟩

/-! ### Claims about the Tag Builder -/

/-- Claim C3, amended: a missing or malformed structured sub-field
makes `parse` raise (the code has no exception handling around
`ast.literal_eval`), and the raised error aborts the whole column
`apply`: there is no degradation to an empty list and no per-row
recovery. -/
theorem applyColumn_error_of_malformed : ∀ col : List Lit,
    Lit.malformed ∈ col → ∃ e, applyColumn col = .error e
  | [], h => absurd h (List.not_mem_nil _)
  | f :: fs, h => by
    rw [applyColumn]
    cases f with
    | malformed => exact ⟨malformedMsg, rfl⟩
    | objs l =>
      have hm : Lit.malformed ∈ fs := by
        rcases List.mem_cons.mp h with h | h
        · exact absurd h (by simp)
        · exact h
      obtain ⟨e, he⟩ := applyColumn_error_of_malformed fs hm
      simp only [parse]
      rw [he]
      exact ⟨e, rfl⟩

/-- Witness for C3 (amended) on a one-row column. -/
theorem applyColumn_error_witness :
    Lit.malformed ∈ [Lit.malformed] ∧
      ∃ e, applyColumn [Lit.malformed] = .error e :=
  ⟨by decide, applyColumn_error_of_malformed _ (by decide)⟩

/-- Counterexample to C3 as stated: a malformed first row does not
degrade to an empty list with processing continuing; the whole batch
returns the `literal_eval` error and the well-formed second row is
never produced. -/
theorem parse_malformed_counterexample :
    applyColumn [Lit.malformed, Lit.objs [⟨"Action", ""⟩]] = .error malformedMsg ∧
      applyColumn [Lit.malformed, Lit.objs [⟨"Action", ""⟩]] ≠
        .ok [[], ["Action"]] := by
  refine ⟨rfl, ?_⟩
  intro h
  simp [applyColumn, parse] at h

/-- Claim C9: on a row whose four structured fields decode, the
produced tag is the lowercase of the five parts - synopsis (empty when
absent), genre names, keyword names, first three cast names, director
name - each space-joined and separated by single spaces. -/
theorem build_tags_spec (mid : Int) (t : String) (o : Option String)
    (g k c d : List Obj) :
    build_tags ⟨mid, t, o, .objs g, .objs k, .objs c, .objs d⟩ =
      .ok (tagSpec o g k c d) := by
  simp [build_tags, parse, parse_cast, parse_director, tagSpec, fillna,
    Bind.bind, Except.bind, Pure.pure, Except.pure, String.intercalate,
    String.intercalate.go, String.append_assoc]

/-! ### Claims about the Vectorizer -/

/-- Claim C8: vectorization fails (with the empty-vocabulary error the
library raises, the `EmptyCorpusError` of the specification) exactly
when the tag sequence is empty or the produced vocabulary is empty. -/
theorem fit_transform_error_iff (sw : List String) (tags : List String) :
    (∃ e, fit_transform sw tags = .error e) ↔
      (tags = [] ∨ vocabTerms sw tags = []) := by
  constructor
  · rintro ⟨e, he⟩
    simp only [fit_transform] at he
    by_cases hv : vocabTerms sw tags = []
    · exact Or.inr hv
    · rw [if_neg hv] at he
      exact absurd he (by simp)
  · intro h
    have hv : vocabTerms sw tags = [] := by
      rcases h with rfl | hv
      · rfl
      · exact hv
    refine ⟨emptyVocabMsg, ?_⟩
    simp only [fit_transform]
    rw [if_pos hv]

/-! ### Claims about the Similarity Engine -/

/-- A self dot product is nonnegative. -/
theorem dotZ_self_nonneg : ∀ v : List ℤ, 0 ≤ dotZ v v
  | [] => le_refl 0
  | x :: xs => by
    have h := dotZ_self_nonneg xs
    show 0 ≤ x * x + dotZ xs xs
    nlinarith [mul_self_nonneg x]

/-- A self dot product vanishes exactly on the all-zero vector. -/
theorem dotZ_self_eq_zero : ∀ v : List ℤ, dotZ v v = 0 ↔ isZeroVec v = true
  | [] => by simp [dotZ, isZeroVec]
  | x :: xs => by
    have h := dotZ_self_eq_zero xs
    have hx := mul_self_nonneg x
    have hxs := dotZ_self_nonneg xs
    constructor
    · intro h0
      have h0' : x * x + dotZ xs xs = 0 := h0
      have hx0 : x = 0 := by nlinarith
      have hxs0 : dotZ xs xs = 0 := by nlinarith
      have hz := h.mp hxs0
      simp only [isZeroVec, List.all_cons, Bool.and_eq_true, decide_eq_true_eq]
      simp only [isZeroVec] at hz
      exact ⟨hx0, hz⟩
    · intro hz
      simp only [isZeroVec, List.all_cons, Bool.and_eq_true,
        decide_eq_true_eq] at hz
      have hxs0 : dotZ xs xs = 0 := h.mpr hz.2
      show x * x + dotZ xs xs = 0
      rw [hz.1, hxs0]
      ring

/-- A zero left factor kills the dot product. -/
theorem dotZ_zero_left : ∀ v w : List ℤ, isZeroVec v = true → dotZ v w = 0
  | [], _, _ => rfl
  | _ :: _, [], _ => rfl
  | x :: xs, y :: ys, h => by
    simp only [isZeroVec, List.all_cons, Bool.and_eq_true,
      decide_eq_true_eq] at h
    show x * y + dotZ xs ys = 0
    rw [h.1, dotZ_zero_left xs ys h.2]
    ring

/-- A zero right factor kills the dot product. -/
theorem dotZ_zero_right : ∀ v w : List ℤ, isZeroVec w = true → dotZ v w = 0
  | [], _, _ => rfl
  | _ :: _, [], _ => rfl
  | x :: xs, y :: ys, h => by
    simp only [isZeroVec, List.all_cons, Bool.and_eq_true,
      decide_eq_true_eq] at h
    show x * y + dotZ xs ys = 0
    rw [h.1, dotZ_zero_right xs ys h.2]
    ring

/-- The diagonal entry of a nonzero row is exactly 1. -/
theorem cosEntry_self_one (v : List ℤ) (h : ¬ isZeroVec v = true) :
    cosEntry v v = 1 := by
  have hne : dotZ v v ≠ 0 := fun h0 => h ((dotZ_self_eq_zero v).mp h0)
  have hpos : 0 < dotZ v v := lt_of_le_of_ne (dotZ_self_nonneg v) (Ne.symm hne)
  unfold cosEntry nrm
  rw [if_neg hne]
  have hposr : (0 : ℝ) < ((dotZ v v : ℤ) : ℝ) := by exact_mod_cast hpos
  rw [Real.mul_self_sqrt (le_of_lt hposr)]
  exact div_self (ne_of_gt hposr)

/-- A zero row has similarity 0 to everything (itself included). -/
theorem cosEntry_zero_left (v w : List ℤ) (h : isZeroVec v = true) :
    cosEntry v w = 0 := by
  unfold cosEntry
  rw [dotZ_zero_left v w h]
  simp

/-- A zero column has similarity 0 to everything. -/
theorem cosEntry_zero_right (v w : List ℤ) (h : isZeroVec w = true) :
    cosEntry v w = 0 := by
  unfold cosEntry
  rw [dotZ_zero_right v w h]
  simp

/-- In-range entries of the similarity matrix are cosine entries. -/
theorem simEntry_eq (m : List (List ℤ)) (i j : Nat) (hi : i < m.length)
    (hj : j < m.length) :
    simEntry m i j = cosEntry (m.getD i []) (m.getD j []) := by
  have h1 : (cosine_similarity m).getD i [] =
      List.map (fun w => cosEntry (m.getD i []) w) m := by
    unfold cosine_similarity
    rw [List.getD_eq_getElem _ _ (by simpa using hi), List.getElem_map,
      List.getD_eq_getElem _ _ hi]
  unfold simEntry
  rw [h1, List.getD_eq_getElem _ _ (by simpa using hj), List.getElem_map,
    List.getD_eq_getElem _ _ hj]

/-- Claim C7: every diagonal entry of the similarity matrix equals 1,
except on an all-zero feature row, where the diagonal entry - and the
similarity to and from every other row - equals 0. -/
theorem similarity_diagonal (m : List (List ℤ)) (i j : Nat)
    (hi : i < m.length) (hj : j < m.length) :
    (¬ isZeroVec (m.getD i []) = true → simEntry m i i = 1) ∧
      (isZeroVec (m.getD i []) = true →
        simEntry m i i = 0 ∧ simEntry m i j = 0 ∧ simEntry m j i = 0) := by
  constructor
  · intro h
    rw [simEntry_eq m i i hi hi]
    exact cosEntry_self_one _ h
  · intro h
    refine ⟨?_, ?_, ?_⟩
    · rw [simEntry_eq m i i hi hi]
      exact cosEntry_zero_left _ _ h
    · rw [simEntry_eq m i j hi hj]
      exact cosEntry_zero_left _ _ h
    · rw [simEntry_eq m j i hj hi]
      exact cosEntry_zero_right _ _ h

/-- Witness for C7 on the matrix with rows `[1, 0]` and `[0, 0]`. -/
theorem similarity_diagonal_witness :
    simEntry [[1, 0], [0, 0]] 0 0 = 1 ∧
      (simEntry [[1, 0], [0, 0]] 1 1 = 0 ∧ simEntry [[1, 0], [0, 0]] 1 0 = 0 ∧
        simEntry [[1, 0], [0, 0]] 0 1 = 0) :=
  ⟨(similarity_diagonal [[1, 0], [0, 0]] 0 1 (by decide) (by decide)).1
      (by decide),
   (similarity_diagonal [[1, 0], [0, 0]] 1 0 (by decide) (by decide)).2
      (by decide)⟩

end MovieRec
